import Mathlib

/-!
Verification of the MC_TRANSLATOR real-time translation pipeline.

Shallow embedding of `src/minecraft_translator_complete_enhanced.py` and
`src/ui/main_window.py`.  Text is modelled as `List Char` (Unicode code
points).  Python regular-expression operations are modelled by explicit
character scanners that mirror the scanning/backtracking behaviour of the
concrete patterns appearing in the source.
-/

namespace MCT

/-! ## Character classes

Python's `str.strip()` / regex `\s` whitespace set (the Unicode whitespace
code points recognised by `str.isspace`). -/

def isSpacePy (c : Char) : Bool :=
  let n := c.toNat
  decide ((0x09 ≤ n ∧ n ≤ 0x0D) ∨ n = 0x20 ∨ (0x1C ≤ n ∧ n ≤ 0x1F) ∨
    n = 0x85 ∨ n = 0xA0 ∨ n = 0x1680 ∨ (0x2000 ≤ n ∧ n ≤ 0x200A) ∨
    n = 0x2028 ∨ n = 0x2029 ∨ n = 0x202F ∨ n = 0x205F ∨ n = 0x3000)

def isLatinLetter (c : Char) : Bool :=
  decide ((0x41 ≤ c.toNat ∧ c.toNat ≤ 0x5A) ∨ (0x61 ≤ c.toNat ∧ c.toNat ≤ 0x7A))

def isDigitCh (c : Char) : Bool :=
  decide (0x30 ≤ c.toNat ∧ c.toNat ≤ 0x39)

/-- CJK Unified Ideographs (the range `[一-鿿]` used by the detector). -/
def isHanURO (c : Char) : Bool :=
  decide (0x4E00 ≤ c.toNat ∧ c.toNat ≤ 0x9FFF)

/-- CJK Unified Ideographs Extension A (`[㐀-䶿]`). -/
def isHanExtA (c : Char) : Bool :=
  decide (0x3400 ≤ c.toNat ∧ c.toNat ≤ 0x4DBF)

/-- CJK Unified Ideographs Extension B (`[\U00020000-\U0002A6DF]`). -/
def isHanExtB (c : Char) : Bool :=
  decide (0x20000 ≤ c.toNat ∧ c.toNat ≤ 0x2A6DF)

def isHiragana (c : Char) : Bool :=
  decide (0x3040 ≤ c.toNat ∧ c.toNat ≤ 0x309F)

def isKatakana (c : Char) : Bool :=
  decide (0x30A0 ≤ c.toNat ∧ c.toNat ≤ 0x30FF)

def isHangulSyllable (c : Char) : Bool :=
  decide (0xAC00 ≤ c.toNat ∧ c.toNat ≤ 0xD7AF)

def isHangulJamo (c : Char) : Bool :=
  decide (0x1100 ≤ c.toNat ∧ c.toNat ≤ 0x11FF)

def isHangulCompat (c : Char) : Bool :=
  decide (0x3130 ≤ c.toNat ∧ c.toNat ≤ 0x318F)

def isCyrillic (c : Char) : Bool :=
  decide (0x0400 ≤ c.toNat ∧ c.toNat ≤ 0x04FF)

/-- `str.lower()`, restricted to the scripts the program inspects
(ASCII and Cyrillic); other code points are left unchanged. -/
def pyLower (c : Char) : Char :=
  if 0x41 ≤ c.toNat ∧ c.toNat ≤ 0x5A then Char.ofNat (c.toNat + 0x20)
  else if 0x410 ≤ c.toNat ∧ c.toNat ≤ 0x42F then Char.ofNat (c.toNat + 0x20)
  else if 0x400 ≤ c.toNat ∧ c.toNat ≤ 0x40F then Char.ofNat (c.toNat + 0x50)
  else c

/-- Regex `\w` (Unicode word character), restricted to ASCII word characters
plus the script ranges this program inspects; exact on those scripts. -/
def isWordChar (c : Char) : Bool :=
  isLatinLetter c || isDigitCh c || c == '_' || isHanURO c || isHanExtA c ||
  isHanExtB c || isHiragana c || isKatakana c || isHangulSyllable c ||
  isHangulJamo c || isHangulCompat c || isCyrillic c

/-! ## Python `str.strip()` -/

def pyStripLeft (l : List Char) : List Char := l.dropWhile isSpacePy

def pyStripRight (l : List Char) : List Char := (l.reverse.dropWhile isSpacePy).reverse

def pyStrip (l : List Char) : List Char := pyStripRight (pyStripLeft l)

/-! ## Language tags (`class Language(Enum)`) -/

inductive Language where
  | UNKNOWN
  | ENGLISH
  | CHINESE
  | JAPANESE
  | KOREAN
  | FRENCH
  | GERMAN
  | SPANISH
  | RUSSIAN
deriving DecidableEq, Repr

/-- The `value` of each `Language` enum member. -/
def Language.value : Language → List Char
  | .UNKNOWN => "unknown".toList
  | .ENGLISH => "en".toList
  | .CHINESE => "zh".toList
  | .JAPANESE => "ja".toList
  | .KOREAN => "ko".toList
  | .FRENCH => "fr".toList
  | .GERMAN => "de".toList
  | .SPANISH => "es".toList
  | .RUSSIAN => "ru".toList

/-! ## Word-boundary stop-word counting

Models `len(re.findall(r"\b(w1|...|wn)\b", text_lower, re.IGNORECASE))`:
scan left to right; at a position preceded by a non-word character, try the
alternatives in order; an alternative matches when it is a (case-folded)
prefix and is followed by a word boundary; the scan resumes after the match. -/

def tagPrefixCI (tag : List Char) (l : List Char) : Bool :=
  decide ((l.take tag.length).map pyLower = tag)

def boundaryAfter (l : List Char) : Bool :=
  match l with
  | [] => true
  | c :: _ => !isWordChar c

def firstWordMatch (words : List (List Char)) (l : List Char) : Option Nat :=
  words.findSome? fun w =>
    if tagPrefixCI w l && boundaryAfter (l.drop w.length) then some w.length else none

def countWordsFuel (words : List (List Char)) : Nat → Bool → List Char → Nat
  | 0, _, _ => 0
  | _ + 1, _, [] => 0
  | fuel + 1, prevW, c :: rest =>
    if !prevW && isWordChar c then
      match firstWordMatch words (c :: rest) with
      | some k => 1 + countWordsFuel words fuel true ((c :: rest).drop k)
      | none => countWordsFuel words fuel (isWordChar c) rest
    else countWordsFuel words fuel (isWordChar c) rest

def countWords (words : List (List Char)) (l : List Char) : Nat :=
  countWordsFuel words l.length false l

def stopwordsA : List (List Char) :=
  ["the", "and", "you", "that", "have", "for", "not", "with", "this", "but"].map String.toList

def stopwordsB : List (List Char) :=
  ["is", "are", "was", "were", "be", "been", "being"].map String.toList

/-! ## `LanguageDetector.detect`

Scores are rationals with denominator 2 in the source (`* 0.5` weight), so we
store doubled scores as naturals. -/

def scoreEnglish2 (t tl : List Char) : Nat :=
  2 * (tl.countP isLatinLetter + countWords stopwordsA tl + countWords stopwordsB tl) +
    t.countP isLatinLetter

def scoreChinese2 (t tl : List Char) : Nat :=
  2 * (tl.countP isHanURO + tl.countP isHanExtA + tl.countP isHanExtB) +
    4 * t.countP isHanURO

def scoreJapanese2 (tl : List Char) : Nat :=
  2 * (tl.countP isHiragana + tl.countP isKatakana + tl.countP isHanURO)

def scoreKorean2 (tl : List Char) : Nat :=
  2 * (tl.countP isHangulSyllable + tl.countP isHangulJamo + tl.countP isHangulCompat)

def scoreRussian2 (tl : List Char) : Nat :=
  2 * tl.countP isCyrillic

/-- `max(scores.items(), key=lambda x: x[1])`: first maximal entry in
insertion order (later entries replace only on strictly greater score). -/
def maxScore (init : Language × Nat) (rest : List (Language × Nat)) : Language × Nat :=
  rest.foldl (fun b p => if b.2 < p.2 then p else b) init

/-- `LanguageDetector._contains_chinese` -/
def containsChineseURO (l : List Char) : Bool := l.any isHanURO

/-- `LanguageDetector.detect` -/
def detect (text : List Char) : Language :=
  if text = [] then .UNKNOWN
  else
    let t := pyStrip text
    if t = [] then .UNKNOWN
    else if containsChineseURO t then .CHINESE
    else
      let tl := t.map pyLower
      let best := maxScore (.ENGLISH, scoreEnglish2 t tl)
        [(.CHINESE, scoreChinese2 t tl), (.JAPANESE, scoreJapanese2 tl),
         (.KOREAN, scoreKorean2 tl), (.RUSSIAN, scoreRussian2 tl)]
      if 0 < best.2 then best.1
      else if t.any isLatinLetter then .ENGLISH
      else .UNKNOWN

/-! ## `LanguageDetector.should_translate` -/

/-- The `lang_map` literal of `should_translate`. -/
def langMap : List (List Char × Language) :=
  [("zh-CN".toList, .CHINESE), ("en".toList, .ENGLISH), ("ja".toList, .JAPANESE),
   ("ko".toList, .KOREAN), ("fr".toList, .FRENCH), ("de".toList, .GERMAN),
   ("es".toList, .SPANISH), ("ru".toList, .RUSSIAN)]

/-- `target = lang_map[target_lang] if target_lang in lang_map else UNKNOWN`. -/
def targetOf (target_lang : List Char) : Language :=
  match langMap.find? (fun p => p.1 == target_lang) with
  | some p => p.2
  | none => .UNKNOWN

def should_translate (text : List Char) (target_lang : List Char) : Bool :=
  let detected := detect text
  let target := targetOf target_lang
  if detected = target then false
  else if detected = .UNKNOWN then true
  else if (detected = .CHINESE ∧ target = .ENGLISH) ∨
          (detected = .ENGLISH ∧ target = .CHINESE) then true
  else true

/-- Unicode Han code points, as enumerated by the repository's own
`Language.CHINESE` pattern ranges (URO plus Extensions A and B). -/
def containsHanCodePoint (l : List Char) : Bool :=
  l.any fun c => isHanExtA c || isHanURO c || isHanExtB c

/-! ## `MessageFilter.clean_message`

Each entry of `patterns_to_remove` is applied with `re.sub(pat, "", s,
flags=re.IGNORECASE)`; the first four patterns are anchored at the start of
the string, the rest are global.  Each is modelled by a dedicated scanner. -/

/-- The Minecraft formatting-code class `[0-9a-fk-or]` under `IGNORECASE`. -/
def isCodeChar (c : Char) : Bool :=
  isDigitCh c ||
  decide (0x61 ≤ c.toNat ∧ c.toNat ≤ 0x66) ||
  decide (0x6B ≤ c.toNat ∧ c.toNat ≤ 0x6F) ||
  c == 'r' ||
  decide (0x41 ≤ c.toNat ∧ c.toNat ≤ 0x46) ||
  decide (0x4B ≤ c.toNat ∧ c.toNat ≤ 0x4F) ||
  c == 'R'

/-- ASCII word characters `[A-Za-z0-9_]` (used by the explicit look-behind
class of the last substitution). -/
def isAsciiWordChar (c : Char) : Bool :=
  isLatinLetter c || isDigitCh c || c == '_'

/-- `re.sub(r"^\[\d{2}:\d{2}:\d{2}\]\s*", "", s)` -/
def dropTimePrefix (l : List Char) : List Char :=
  match l with
  | '[' :: d1 :: d2 :: ':' :: d3 :: d4 :: ':' :: d5 :: d6 :: ']' :: rest =>
    if isDigitCh d1 && isDigitCh d2 && isDigitCh d3 && isDigitCh d4 &&
       isDigitCh d5 && isDigitCh d6 then rest.dropWhile isSpacePy else l
  | _ => l

/-- `re.sub(r"^\[\d{4}-\d{2}-\d{2} \d{2}:\d{2}:\d{2}\]\s*", "", s)` -/
def dropDatePrefix (l : List Char) : List Char :=
  match l with
  | '[' :: y1 :: y2 :: y3 :: y4 :: '-' :: m1 :: m2 :: '-' :: d1 :: d2 :: ' ' ::
    h1 :: h2 :: ':' :: n1 :: n2 :: ':' :: s1 :: s2 :: ']' :: rest =>
    if [y1, y2, y3, y4, m1, m2, d1, d2, h1, h2, n1, n2, s1, s2].all isDigitCh then
      rest.dropWhile isSpacePy
    else l
  | _ => l

/-- `re.sub(r"^§[0-9a-fk-or]\s*", "", s, flags=IGNORECASE)` -/
def dropSectPrefix (l : List Char) : List Char :=
  match l with
  | '§' :: c :: rest => if isCodeChar c then rest.dropWhile isSpacePy else l
  | _ => l

/-- `re.sub(r"^([0-9a-fk-or])(?=\[)", "", s, flags=IGNORECASE)`
(the look-ahead does not consume the bracket). -/
def dropCodePrefix (l : List Char) : List Char :=
  match l with
  | c :: '[' :: rest => if isCodeChar c then '[' :: rest else l
  | _ => l

/-- Lazy search used by `\[.*?TAG`: starting right after the opening
bracket, return the number of characters consumed up to and including the
first (case-folded) occurrence of `tag`, provided no newline intervenes
(`.` does not match a newline). -/
def findTagLen (tag : List Char) : Nat → List Char → Option Nat
  | fuel, l =>
    if tagPrefixCI tag l then some tag.length
    else
      match fuel, l with
      | _, [] => none
      | f + 1, c :: t => if c = '\n' then none else (findTagLen tag f t).map (· + 1)
      | 0, _ :: _ => none

/-- Global `re.sub(r"\[.*?TAG\]:\s*", "", s, flags=IGNORECASE)` where the
supplied `tag` is the lower-cased `TAG]:` text; the scan resumes after each
removed match. -/
def subTagFuel (tag : List Char) : Nat → List Char → List Char
  | 0, l => l
  | _ + 1, [] => []
  | fuel + 1, c :: rest =>
    if c = '[' then
      match findTagLen tag rest.length rest with
      | some k => subTagFuel tag fuel ((rest.drop k).dropWhile isSpacePy)
      | none => c :: subTagFuel tag fuel rest
    else c :: subTagFuel tag fuel rest

def subTag (tag : List Char) (l : List Char) : List Char := subTagFuel tag l.length l

/-- Global case-insensitive removal of a literal followed by `\s*`
(models `re.sub(r"\[Client thread\]:\s*", ...)` and the like). -/
def subLitFuel (lit : List Char) : Nat → List Char → List Char
  | 0, l => l
  | _ + 1, [] => []
  | fuel + 1, c :: rest =>
    if tagPrefixCI lit (c :: rest) then
      subLitFuel lit fuel (((c :: rest).drop lit.length).dropWhile isSpacePy)
    else c :: subLitFuel lit fuel rest

def subLit (lit : List Char) (l : List Char) : List Char := subLitFuel lit l.length l

/-- Global `re.sub(r"§[0-9A-FK-ORa-fk-or]", "", s)`. -/
def subSectCode : List Char → List Char
  | [] => []
  | [c] => [c]
  | c :: d :: rest =>
    if c = '§' then
      (if isCodeChar d then subSectCode rest else c :: subSectCode (d :: rest))
    else c :: subSectCode (d :: rest)

def headIsLBracket : List Char → Bool
  | [] => false
  | c :: _ => decide (c = '[')

def noWordBefore : Option Char → Bool
  | none => true
  | some p => !isAsciiWordChar p

/-- Global `re.sub(r"(?<![A-Za-z0-9_])[0-9A-FK-ORa-fk-or](?=\[)", "", s)`;
the look-behind inspects the character of the input preceding the match
position, the look-ahead does not consume. -/
def subCodeBracket : Option Char → List Char → List Char
  | _, [] => []
  | prev, c :: rest =>
    if isCodeChar c && noWordBefore prev && headIsLBracket rest then
      subCodeBracket (some c) rest
    else c :: subCodeBracket (some c) rest

/-- `MessageFilter.clean_message` -/
def clean_message (message : List Char) : List Char :=
  let c1 := dropTimePrefix message
  let c2 := dropDatePrefix c1
  let c3 := dropSectPrefix c2
  let c4 := dropCodePrefix c3
  let c5 := subTag ("info]:".toList) c4
  let c6 := subTag ("warn]:".toList) c5
  let c7 := subTag ("error]:".toList) c6
  let c8 := subLit ("[client thread]:".toList) c7
  let c9 := subLit ("[server thread]:".toList) c8
  let c10 := subLit ("[chat]".toList) c9
  let c11 := subSectCode c10
  let c12 := c11.filter (fun c => c != '§')
  let c13 := subCodeBracket none c12
  let r := pyStrip c13
  if r = [] then pyStrip message else r

/-! ## `MessageFilter.extract_player_message` pattern family -/

/-- The greedy optional-prefix loop `(?:\[[^\]]*\]\s*)*`: each iteration
consumes a bracket group (up to the first `]`) and trailing whitespace; a
bracket with no closing `]` ends the loop without consuming. -/
def skipBracketGroupsFuel : Nat → List Char → List Char
  | 0, l => l
  | fuel + 1, l =>
    match l with
    | [] => l
    | c :: rest =>
      if c = '[' then
        match rest.dropWhile (fun x => x != ']') with
        | [] => l
        | _ :: t => skipBracketGroupsFuel fuel (t.dropWhile isSpacePy)
      else l

def skipBracketGroups (l : List Char) : List Char := skipBracketGroupsFuel l.length l

/-- `\s*(.*)$` : greedy whitespace, then the group runs to the end of the
string or to a single final newline (`.` does not match a newline, `$`
matches at the end or just before a terminal newline). -/
def matchSpaceRestEnd (l : List Char) : Option (List Char) :=
  let t := l.dropWhile isSpacePy
  let m := t.takeWhile (fun c => c != '\n')
  match t.dropWhile (fun c => c != '\n') with
  | [] => some m
  | [_] => some m
  | _ => none

/-- `<([^>]+)>\s*(.*)$` (the head of a non-empty `dropWhile (· != '>')`
result is necessarily `'>'`, so only emptiness needs testing there). -/
def matchAngleTail (l : List Char) : Option (List Char × List Char) :=
  match l with
  | [] => none
  | c :: t =>
    if c = '<' then
      let name := t.takeWhile (fun x => x != '>')
      match t.dropWhile (fun x => x != '>') with
      | [] => none
      | _ :: t2 =>
        if name = [] then none
        else (matchSpaceRestEnd t2).map (fun m => (name, m))
    else none

/-- Pattern `^(?:\[[^\]]*\]\s*)*<([^>]+)>\s*(.*)$`. -/
def matchAnglePattern (l : List Char) : Option (List Char × List Char) :=
  matchAngleTail (skipBracketGroups l)

/-- Backtracking search for a lazy `.*?TAG`: at each position, if the
(case-folded) tag matches and the continuation of the pattern succeeds the
match is kept, otherwise the lazy group is extended by one non-newline
character. -/
def scanLazy (tag : List Char) (cont : List Char → Option (List Char × List Char)) :
    Nat → List Char → Option (List Char × List Char)
  | fuel, l =>
    match (if tagPrefixCI tag l then cont (l.drop tag.length) else none) with
    | some r => some r
    | none =>
      match fuel, l with
      | _, [] => none
      | f + 1, c :: t => if c = '\n' then none else scanLazy tag cont f t
      | 0, _ :: _ => none

/-- Pattern `^\[.*?\]\s*\[.*?/CHAT\]:\s*<([^>]+)>\s*(.*)$`. -/
def matchChatTagPattern (l : List Char) : Option (List Char × List Char) :=
  match l with
  | '[' :: rest =>
    scanLazy ("]".toList)
      (fun r2 =>
        match r2.dropWhile isSpacePy with
        | '[' :: r4 =>
          scanLazy ("/chat]:".toList)
            (fun r5 => matchAngleTail (r5.dropWhile isSpacePy)) r4.length r4
        | _ => none)
      rest.length rest
  | _ => none

/-- Pattern `^(?:\[[^\]]*\]\s*)*([A-Za-z0-9_]{3,16})\s*:\s*(.*)$`.  The
greedy bounded repetition is equivalent to requiring the full word-character
run to have length 3..16: any shorter capture leaves a word character where
`\s*:` must match. -/
def matchColonPattern (l : List Char) : Option (List Char × List Char) :=
  let t := skipBracketGroups l
  let run := t.takeWhile isAsciiWordChar
  if 3 ≤ run.length ∧ run.length ≤ 16 then
    match (t.drop run.length).dropWhile isSpacePy with
    | ':' :: t3 => (matchSpaceRestEnd t3).map (fun m => (run, m))
    | _ => none
  else none

/-- `re.match(r"^(Max|Total|Free)$", name, flags=IGNORECASE)` -/
def isReservedName (name : List Char) : Bool :=
  let ln := name.map pyLower
  ln == "max".toList || ln == "total".toList || ln == "free".toList

def acceptExtract (cleaned : List Char) (pm : List Char × List Char) :
    Option (List Char) × List Char :=
  let p := pyStrip pm.1
  if isReservedName p then (none, cleaned) else (some p, pyStrip pm.2)

/-- `MessageFilter.extract_player_message` -/
def extract_player_message (message : List Char) : Option (List Char) × List Char :=
  let cleaned := clean_message message
  match matchAnglePattern cleaned with
  | some pm => acceptExtract cleaned pm
  | none =>
    match matchChatTagPattern cleaned with
    | some pm => acceptExtract cleaned pm
    | none =>
      match matchColonPattern cleaned with
      | some pm => acceptExtract cleaned pm
      | none => (none, cleaned)

/-- Whether `\s*.+$` matches (with `.` excluding the newline and `$`
anchoring at the end or just before a terminal newline). -/
def dotPlusEndMatches (t3 : List Char) : Bool :=
  let core := match t3.reverse with
    | '\n' :: r => r.reverse
    | _ => t3
  if core = [] then false
  else
    let sp := (core.takeWhile isSpacePy).length
    let tailSeg := (core.reverse.takeWhile (fun c => c != '\n')).length
    decide (core.length - tailSeg ≤ sp ∧ core.length - tailSeg < core.length)

/-- `chat_patterns[3]`: `^(?:\[[^\]]*\]\s*)*[A-Za-z0-9_]{3,16}\s*:\s*.+$`. -/
def colonShapeMatches (l : List Char) : Bool :=
  let t := skipBracketGroups l
  let run := t.takeWhile isAsciiWordChar
  if 3 ≤ run.length ∧ run.length ≤ 16 then
    match (t.drop run.length).dropWhile isSpacePy with
    | ':' :: t3 => dotPlusEndMatches t3
    | _ => false
  else false

/-- The per-line classification of `_monitor_loop._process_content` under the
default filter options (`keep_system = False`, so `is_system_message` is
constantly false): a line is tagged "chat" exactly when extraction finds a
speaker, otherwise "info". -/
def messageTypeDefault (line : List Char) : List Char :=
  let cleaned := clean_message line
  match (extract_player_message cleaned).1 with
  | some _ => "chat".toList
  | none => "info".toList

/-! ## Lemmas about `pyStrip` -/

theorem mem_dropWhile_of_not {p : Char → Bool} {c : Char} {l : List Char}
    (hc : c ∈ l) (hp : p c = false) : c ∈ l.dropWhile p := by
  induction l with
  | nil => exact absurd hc (List.not_mem_nil c)
  | cons a t ih =>
    rw [List.dropWhile_cons]
    rcases List.mem_cons.mp hc with rfl | hmem
    · rw [hp]; exact List.mem_cons_self _ _
    · by_cases ha : p a = true
      · rw [ha]; simpa using ih hmem
      · rw [Bool.not_eq_true] at ha; rw [ha]
        exact List.mem_cons_of_mem _ hmem

theorem mem_pyStrip {c : Char} {l : List Char}
    (hc : c ∈ l) (hs : isSpacePy c = false) : c ∈ pyStrip l := by
  unfold pyStrip pyStripLeft pyStripRight
  have h1 : c ∈ l.dropWhile isSpacePy := mem_dropWhile_of_not hc hs
  have h2 : c ∈ (l.dropWhile isSpacePy).reverse := List.mem_reverse.mpr h1
  exact List.mem_reverse.mpr (mem_dropWhile_of_not h2 hs)

theorem isSpacePy_eq_false_of_isHanURO {c : Char} (h : isHanURO c = true) :
    isSpacePy c = false := by
  simp only [isHanURO, decide_eq_true_eq] at h
  simp only [isSpacePy, decide_eq_false_iff_not]
  omega

/-! ## Claim C1 -/

/-- The claim as stated is false: for the target string `"zh"` (which the
Baidu engine path passes to `should_translate`) the `lang_map` lookup falls
through to `UNKNOWN`; a text whose detected tag is Unknown therefore compares
equal to the target and the function returns `false`, although the claim
promises `true` whenever the detected tag is Unknown. -/
theorem C1_counterexample :
    detect ("!!!".toList) = Language.UNKNOWN ∧
    should_translate ("!!!".toList) ("zh".toList) = false := by
  decide

/-- Claim C1 (amended): `should_translate(text, target)` returns false iff
the detected tag equals the image of the target string under the literal
`lang_map` (which maps the eight spellings zh-CN, en, ja, ko, fr, de, es, ru
and sends every other target string, including bare "zh", to Unknown).  In
particular, for an unmapped target it returns false exactly when detection
yields Unknown, and it returns true for every mismatched pair. -/
theorem C1_should_translate_iff (text target_lang : List Char) :
    should_translate text target_lang = true ↔ detect text ≠ targetOf target_lang := by
  unfold should_translate
  by_cases h : detect text = targetOf target_lang
  · simp [h]
  · rw [if_neg h]
    refine iff_of_true ?_ h
    split
    · rfl
    · split <;> rfl

/-! ## Claim C3 -/

/-- The claim as stated is false: the immediate-Chinese shortcut tests only
the basic CJK Unified Ideographs range U+4E00..U+9FFF.  The text
`"㐀アアアア"` contains the Han code point U+3400 (Extension A, one of the
repository's own Chinese ranges), yet the scoring stage classifies it as
Japanese because of the katakana. -/
theorem C3_counterexample :
    containsHanCodePoint ("㐀アアアア".toList) = true ∧
    detect ("㐀アアアア".toList) = Language.JAPANESE ∧
    detect ("㐀アアアア".toList) ≠ Language.CHINESE := by
  decide

/-- Claim C3 (amended): for every text containing a code point of the basic
CJK Unified Ideographs range U+4E00..U+9FFF, `detect` returns the Chinese
tag immediately, regardless of what other characters the text contains. -/
theorem C3_han_uro_forces_chinese (text : List Char)
    (h : ∃ c ∈ text, isHanURO c = true) : detect text = Language.CHINESE := by
  obtain ⟨c, hc, hhan⟩ := h
  have hne : text ≠ [] := List.ne_nil_of_mem hc
  have hmem : c ∈ pyStrip text := mem_pyStrip hc (isSpacePy_eq_false_of_isHanURO hhan)
  have htne : pyStrip text ≠ [] := List.ne_nil_of_mem hmem
  have hhanstrip : containsChineseURO (pyStrip text) = true := by
    unfold containsChineseURO
    rw [List.any_eq_true]
    exact ⟨c, hmem, hhan⟩
  simp only [detect]
  rw [if_neg hne, if_neg htne, if_pos hhanstrip]

theorem C3_witness : detect ("中文abc".toList) = Language.CHINESE :=
  C3_han_uro_forces_chinese _ ⟨'中', by decide, by decide⟩

/-! ## Claim C10 -/

theorem maxScore_mem (init : Language × Nat) (rest : List (Language × Nat)) :
    (maxScore init rest).1 = init.1 ∨ (maxScore init rest).1 ∈ rest.map Prod.fst := by
  induction rest generalizing init with
  | nil => left; rfl
  | cons p ps ih =>
    simp only [maxScore, List.foldl] at *
    by_cases hcmp : init.2 < p.2
    · rw [if_pos hcmp]
      rcases ih p with h | h
      · right; rw [h]; exact List.mem_cons_self _ _
      · right; exact List.mem_cons_of_mem _ h
    · rw [if_neg hcmp]
      rcases ih init with h | h
      · left; exact h
      · right; exact List.mem_cons_of_mem _ h

/-- Claim C10: `detect` never returns the French, German, or Spanish tag:
only Unknown, English, Chinese, Japanese, Korean, and Russian appear in its
score table and fallbacks, even though those three languages are listed in
`Language` and are valid targets of `should_translate`. -/
theorem C10_detect_never_fr_de_es (text : List Char) :
    detect text ≠ Language.FRENCH ∧ detect text ≠ Language.GERMAN ∧
    detect text ≠ Language.SPANISH := by
  simp only [detect]
  split
  · exact ⟨by simp, by simp, by simp⟩
  · split
    · exact ⟨by simp, by simp, by simp⟩
    · split
      · exact ⟨by simp, by simp, by simp⟩
      · split
        · rcases maxScore_mem (Language.ENGLISH, scoreEnglish2 (pyStrip text) ((pyStrip text).map pyLower))
            [(Language.CHINESE, scoreChinese2 (pyStrip text) ((pyStrip text).map pyLower)),
             (Language.JAPANESE, scoreJapanese2 ((pyStrip text).map pyLower)),
             (Language.KOREAN, scoreKorean2 ((pyStrip text).map pyLower)),
             (Language.RUSSIAN, scoreRussian2 ((pyStrip text).map pyLower))] with h | h
          · rw [h]; exact ⟨by simp, by simp, by simp⟩
          · simp only [List.map, List.mem_cons, List.not_mem_nil, or_false] at h
            rcases h with h | h | h | h <;> rw [h] <;> exact ⟨by simp, by simp, by simp⟩
        · split
          · exact ⟨by simp, by simp, by simp⟩
          · exact ⟨by simp, by simp, by simp⟩

/-! ## Lemmas: `pyStrip` -/

theorem toNat_ofNat_lt (n : Nat) (h : n < 0xD800) : (Char.ofNat n).toNat = n := by
  unfold Char.ofNat
  rw [dif_pos (Or.inl h)]
  simp [Char.ofNatAux, Char.toNat, UInt32.toNat, BitVec.toNat_ofNatLt]

theorem mem_of_mem_dropWhile {p : Char → Bool} {c : Char} {l : List Char}
    (h : c ∈ l.dropWhile p) : c ∈ l := (List.dropWhile_suffix p).mem h

theorem mem_of_mem_pyStrip {c : Char} {l : List Char} (h : c ∈ pyStrip l) : c ∈ l := by
  unfold pyStrip pyStripRight pyStripLeft at h
  exact mem_of_mem_dropWhile (List.mem_reverse.mp (mem_of_mem_dropWhile (List.mem_reverse.mp h)))

theorem dropWhile_idem (p : Char → Bool) (l : List Char) :
    List.dropWhile p (List.dropWhile p l) = List.dropWhile p l := by
  induction l with
  | nil => rfl
  | cons a t ih =>
    rw [List.dropWhile_cons]
    by_cases h : p a = true
    · rw [if_pos h]; exact ih
    · rw [Bool.not_eq_true] at h
      rw [if_neg (by simp [h]), List.dropWhile_cons, if_neg (by simp [h])]

theorem pyStripLeft_idem (l : List Char) : pyStripLeft (pyStripLeft l) = pyStripLeft l :=
  dropWhile_idem _ l

theorem pyStripRight_idem (l : List Char) : pyStripRight (pyStripRight l) = pyStripRight l := by
  unfold pyStripRight
  rw [List.reverse_reverse, dropWhile_idem]

theorem pyStripRight_prefix (l : List Char) : pyStripRight l <+: l := by
  unfold pyStripRight
  conv_rhs => rw [← List.reverse_reverse l]
  exact List.reverse_prefix.mpr (List.dropWhile_suffix isSpacePy)

theorem pyStripLeft_of_pyStripRight {l : List Char} (h : pyStripLeft l = l) :
    pyStripLeft (pyStripRight l) = pyStripRight l := by
  have hpre := pyStripRight_prefix l
  cases hR : pyStripRight l with
  | nil => rfl
  | cons a t =>
    rw [hR] at hpre
    obtain ⟨s, hs⟩ := hpre
    unfold pyStripLeft at h ⊢
    rw [List.dropWhile_cons]
    by_cases hpa : isSpacePy a = true
    · exfalso
      rw [← hs, List.cons_append, List.dropWhile_cons, if_pos hpa] at h
      have h1 := congrArg List.length h
      simp only [List.length_cons] at h1
      have h2 := (List.dropWhile_suffix (l := t ++ s) isSpacePy).length_le
      omega
    · rw [if_neg hpa]

theorem pyStrip_idem (l : List Char) : pyStrip (pyStrip l) = pyStrip l := by
  unfold pyStrip
  rw [pyStripLeft_of_pyStripRight (pyStripLeft_idem l), pyStripRight_idem]

/-! ## Lemmas: `clean_message` is inert on bracket-free, section-free text

Every pattern of the cleaning pipeline requires a `[` or a `§` somewhere in
the match, so on input without either character the pipeline reduces to the
final `str.strip()`. -/

theorem dropTimePrefix_eq {l : List Char} (hb : '[' ∉ l) : dropTimePrefix l = l := by
  unfold dropTimePrefix
  split
  · exact absurd (List.mem_cons_self _ _) hb
  · rfl

theorem dropDatePrefix_eq {l : List Char} (hb : '[' ∉ l) : dropDatePrefix l = l := by
  unfold dropDatePrefix
  split
  · exact absurd (List.mem_cons_self _ _) hb
  · rfl

theorem dropSectPrefix_eq {l : List Char} (hs : '§' ∉ l) : dropSectPrefix l = l := by
  unfold dropSectPrefix
  split
  · exact absurd (List.mem_cons_self _ _) hs
  · rfl

theorem dropCodePrefix_eq {l : List Char} (hb : '[' ∉ l) : dropCodePrefix l = l := by
  unfold dropCodePrefix
  split
  · exact absurd (List.mem_cons_of_mem _ (List.mem_cons_self _ _)) hb
  · rfl

theorem subTagFuel_eq (tag : List Char) (fuel : Nat) {l : List Char} (hb : '[' ∉ l) :
    subTagFuel tag fuel l = l := by
  induction fuel generalizing l with
  | zero => rfl
  | succ f ih =>
    cases l with
    | nil => rfl
    | cons c rest =>
      have hc : ¬c = '[' := fun e => hb (e ▸ List.mem_cons_self _ _)
      have hb' : '[' ∉ rest := fun h => hb (List.mem_cons_of_mem _ h)
      simp only [subTagFuel]
      rw [if_neg hc, ih hb']

theorem subTag_eq (tag : List Char) {l : List Char} (hb : '[' ∉ l) : subTag tag l = l :=
  subTagFuel_eq tag l.length hb

theorem pyLower_ne_lbracket {c : Char} (h : c ≠ '[') : pyLower c ≠ '[' := by
  have hlb : ('[' : Char).toNat = 0x5B := rfl
  unfold pyLower
  split_ifs with h1 h2 h3
  · intro he
    have ht := congrArg Char.toNat he
    rw [toNat_ofNat_lt _ (by omega)] at ht
    omega
  · intro he
    have ht := congrArg Char.toNat he
    rw [toNat_ofNat_lt _ (by omega)] at ht
    omega
  · intro he
    have ht := congrArg Char.toNat he
    rw [toNat_ofNat_lt _ (by omega)] at ht
    omega
  · exact h

theorem tagPrefixCI_lbracket_false {lit : List Char} (hlit : lit.head? = some '[')
    {c : Char} {rest : List Char} (hc : c ≠ '[') :
    tagPrefixCI lit (c :: rest) = false := by
  cases lit with
  | nil => simp at hlit
  | cons a w =>
    have ha : a = '[' := by simpa using hlit
    subst ha
    unfold tagPrefixCI
    rw [decide_eq_false_iff_not]
    intro he
    rw [List.length_cons, List.take_succ_cons, List.map_cons] at he
    exact pyLower_ne_lbracket hc (List.head_eq_of_cons_eq he)

theorem subLitFuel_eq {lit : List Char} (hlit : lit.head? = some '[') (fuel : Nat)
    {l : List Char} (hb : '[' ∉ l) : subLitFuel lit fuel l = l := by
  induction fuel generalizing l with
  | zero => rfl
  | succ f ih =>
    cases l with
    | nil => rfl
    | cons c rest =>
      have hc : c ≠ '[' := fun e => hb (e ▸ List.mem_cons_self _ _)
      have hb' : '[' ∉ rest := fun h => hb (List.mem_cons_of_mem _ h)
      simp only [subLitFuel]
      rw [tagPrefixCI_lbracket_false hlit hc]
      simp only [Bool.false_eq_true, if_false]
      rw [ih hb']

theorem subLit_eq {lit : List Char} (hlit : lit.head? = some '[') {l : List Char}
    (hb : '[' ∉ l) : subLit lit l = l :=
  subLitFuel_eq hlit l.length hb

theorem subSectCode_eq {l : List Char} (hs : '§' ∉ l) : subSectCode l = l := by
  induction l with
  | nil => rfl
  | cons c t ih =>
    have hc : ¬c = '§' := fun e => hs (e ▸ List.mem_cons_self _ _)
    have hs' : '§' ∉ t := fun h => hs (List.mem_cons_of_mem _ h)
    cases t with
    | nil => rfl
    | cons d rest =>
      simp only [subSectCode]
      rw [if_neg hc, ih hs']

theorem filter_sect_eq {l : List Char} (hs : '§' ∉ l) :
    l.filter (fun c => c != '§') = l := by
  refine List.filter_eq_self.mpr fun c hc => ?_
  have : c ≠ '§' := fun e => hs (e ▸ hc)
  simpa using this

theorem subCodeBracket_eq (prev : Option Char) {l : List Char} (hb : '[' ∉ l) :
    subCodeBracket prev l = l := by
  induction l generalizing prev with
  | nil => rfl
  | cons c rest ih =>
    have hb' : '[' ∉ rest := fun h => hb (List.mem_cons_of_mem _ h)
    have hh : headIsLBracket rest = false := by
      cases rest with
      | nil => rfl
      | cons b rb =>
        have : b ≠ '[' := fun e =>
          hb (List.mem_cons_of_mem _ (e ▸ List.mem_cons_self _ _))
        simp [headIsLBracket, this]
    simp only [subCodeBracket]
    rw [hh]
    simp only [Bool.and_false, Bool.false_eq_true, if_false]
    rw [ih _ hb']

theorem clean_message_eq_pyStrip {l : List Char} (hb : '[' ∉ l) (hs : '§' ∉ l) :
    clean_message l = pyStrip l := by
  simp only [clean_message]
  rw [dropTimePrefix_eq hb, dropDatePrefix_eq hb, dropSectPrefix_eq hs, dropCodePrefix_eq hb,
    subTag_eq _ hb, subTag_eq _ hb, subTag_eq _ hb, subLit_eq (by rfl) hb, subLit_eq (by rfl) hb,
    subLit_eq (by rfl) hb, subSectCode_eq hs, filter_sect_eq hs, subCodeBracket_eq none hb]
  split <;> rfl

/-! ## Claim C2 -/

/-- The claim as stated is false: `clean_message` is not idempotent.  On
`"7[12:34:56] hi"` the first pass removes the degraded colour-code letter
`7` (the code letter before a bracket), exposing a leading timestamp that
only the second pass can remove. -/
theorem C2_counterexample :
    clean_message (clean_message ("7[12:34:56] hi".toList)) ≠
      clean_message ("7[12:34:56] hi".toList) := by
  decide

/-- Claim C2 (amended): `clean_message` is idempotent on every line that
contains neither `[` nor `§`; in general a second pass can strip further
(a degraded colour code in front of a bracketed timestamp defeats it). -/
theorem C2_clean_message_idem (line : List Char)
    (hb : '[' ∉ line) (hs : '§' ∉ line) :
    clean_message (clean_message line) = clean_message line := by
  rw [clean_message_eq_pyStrip hb hs]
  have hb' : '[' ∉ pyStrip line := fun h => hb (mem_of_mem_pyStrip h)
  have hs' : '§' ∉ pyStrip line := fun h => hs (mem_of_mem_pyStrip h)
  rw [clean_message_eq_pyStrip hb' hs', pyStrip_idem]

theorem C2_witness :
    clean_message (clean_message ("  hello there  ".toList)) =
      clean_message ("  hello there  ".toList) :=
  C2_clean_message_idem _ (by decide) (by decide)

/-! ## Claim C7 -/

/-- Claim C7: the line `"Max: 256 (512)"` matches the colon-shape chat
pattern (capturing the speaker `"Max"`), but because `Max` is a reserved
token the extraction refuses the speaker, and the line is classified as
info, not chat. -/
theorem C7_max_line_not_chat :
    colonShapeMatches (clean_message ("Max: 256 (512)".toList)) = true ∧
    matchColonPattern ("Max: 256 (512)".toList) =
      some ("Max".toList, "256 (512)".toList) ∧
    isReservedName ("Max".toList) = true ∧
    (extract_player_message ("Max: 256 (512)".toList)).1 = none ∧
    messageTypeDefault ("Max: 256 (512)".toList) = "info".toList := by
  exact ⟨by decide, by decide, by decide, by decide, by decide⟩

/-! ## Lemmas for claim C8 -/

theorem takeWhile_append_all {p : Char → Bool} {l1 l2 : List Char}
    (h : ∀ c ∈ l1, p c = true) : (l1 ++ l2).takeWhile p = l1 ++ l2.takeWhile p := by
  induction l1 with
  | nil => simp
  | cons a t ih =>
    rw [List.cons_append, List.takeWhile_cons, if_pos (h a (List.mem_cons_self _ _)),
      ih (fun c hc => h c (List.mem_cons_of_mem _ hc)), List.cons_append]

theorem dropWhile_append_all {p : Char → Bool} {l1 l2 : List Char}
    (h : ∀ c ∈ l1, p c = true) : (l1 ++ l2).dropWhile p = l2.dropWhile p := by
  induction l1 with
  | nil => simp
  | cons a t ih =>
    rw [List.cons_append, List.dropWhile_cons, if_pos (h a (List.mem_cons_self _ _)),
      ih (fun c hc => h c (List.mem_cons_of_mem _ hc))]

theorem takeWhile_eq_self_of_all {p : Char → Bool} {l : List Char}
    (h : ∀ c ∈ l, p c = true) : l.takeWhile p = l := by
  induction l with
  | nil => rfl
  | cons a t ih =>
    rw [List.takeWhile_cons, if_pos (h a (List.mem_cons_self _ _)),
      ih (fun c hc => h c (List.mem_cons_of_mem _ hc))]

theorem dropWhile_eq_nil_of_all {p : Char → Bool} {l : List Char}
    (h : ∀ c ∈ l, p c = true) : l.dropWhile p = [] := by
  induction l with
  | nil => rfl
  | cons a t ih =>
    rw [List.dropWhile_cons, if_pos (h a (List.mem_cons_self _ _)),
      ih (fun c hc => h c (List.mem_cons_of_mem _ hc))]

theorem mem_of_getLast?_eq {l : List Char} {a : Char} (h : l.getLast? = some a) : a ∈ l := by
  obtain ⟨hne, he⟩ := List.mem_getLast?_eq_getLast (Option.mem_def.mpr h)
  exact he ▸ List.getLast_mem hne

theorem pyStripLeft_eq_self {l : List Char}
    (h : ∀ c, l.head? = some c → isSpacePy c = false) : pyStripLeft l = l := by
  cases l with
  | nil => rfl
  | cons a t =>
    unfold pyStripLeft
    rw [List.dropWhile_cons, if_neg (by simp [h a rfl])]

theorem pyStripRight_eq_self {l : List Char}
    (h : ∀ c, l.getLast? = some c → isSpacePy c = false) : pyStripRight l = l := by
  have h2 : pyStripLeft l.reverse = l.reverse :=
    pyStripLeft_eq_self fun c hc => h c (by rwa [List.head?_reverse] at hc)
  unfold pyStripLeft at h2
  unfold pyStripRight
  rw [h2, List.reverse_reverse]

theorem pyStrip_eq_self {l : List Char}
    (hh : ∀ c, l.head? = some c → isSpacePy c = false)
    (hl : ∀ c, l.getLast? = some c → isSpacePy c = false) : pyStrip l = l := by
  unfold pyStrip
  rw [show pyStripLeft l = l from pyStripLeft_eq_self hh]
  exact pyStripRight_eq_self hl

theorem skipBracketGroups_cons_ne {c : Char} (t : List Char) (hc : c ≠ '[') :
    skipBracketGroups (c :: t) = c :: t := by
  show skipBracketGroupsFuel (t.length + 1) (c :: t) = c :: t
  simp only [skipBracketGroupsFuel]
  rw [if_neg hc]

theorem matchAngleTail_eq {t : List Char} {d : Char} {t2 name : List Char}
    (hd : t.dropWhile (fun x => x != '>') = d :: t2)
    (ht : t.takeWhile (fun x => x != '>') = name)
    (hname : name ≠ []) :
    matchAngleTail ('<' :: t) = (matchSpaceRestEnd t2).map (fun m => (name, m)) := by
  have h0 : matchAngleTail ('<' :: t) =
      (match t.dropWhile (fun x => x != '>') with
       | [] => none
       | _ :: t2 =>
         if t.takeWhile (fun x => x != '>') = [] then none
         else (matchSpaceRestEnd t2).map (fun m => (t.takeWhile (fun x => x != '>'), m))) := rfl
  rw [h0, hd, ht]
  show (if name = [] then none else (matchSpaceRestEnd t2).map (fun m => (name, m))) = _
  rw [if_neg hname]

theorem isSpacePy_eq_false_of_word {c : Char} (h : isAsciiWordChar c = true) :
    isSpacePy c = false := by
  simp only [isAsciiWordChar, isLatinLetter, isDigitCh, Bool.or_eq_true, decide_eq_true_eq,
    beq_iff_eq] at h
  simp only [isSpacePy, decide_eq_false_iff_not]
  rcases h with ((h | h) | h) | h
  · omega
  · omega
  · omega
  · have he : c.toNat = 0x5F := by rw [h]; rfl
    omega

/-! ## Claim C8 -/

/-- The claim as stated is false: the speaker `"Max"` matches the 3..16
identifier shape and `"hi"` is a non-empty message containing a letter, yet
extraction from the cleaned form of `"<Max> hi"` refuses the reserved
speaker and returns no pair. -/
theorem C8_counterexample :
    (∀ c ∈ "Max".toList, isAsciiWordChar c = true) ∧
    3 ≤ ("Max".toList).length ∧ ("Max".toList).length ≤ 16 ∧
    ("hi".toList ≠ [] ∧ ∃ c ∈ "hi".toList, (isLatinLetter c || isHanURO c) = true) ∧
    "<Max> hi".toList = '<' :: ("Max".toList ++ '>' :: ' ' :: "hi".toList) ∧
    extract_player_message (clean_message ("<Max> hi".toList)) =
      (none, "<Max> hi".toList) := by
  refine ⟨by decide, by decide, by decide, ⟨by decide, ⟨'h', by decide, by decide⟩⟩, by decide,
    by decide⟩

/-- Claim C8 (amended): for any speaker of 3..16 ASCII word characters that
is not one of the reserved tokens Max/Total/Free, and any non-empty message
containing a letter or CJK character that contains no `[`, `§` or newline
and neither starts nor ends with whitespace, extraction from the cleaned
form of `"<speaker> message"` recovers exactly (speaker, message). -/
theorem C8_extract_roundtrip (sp msg : List Char)
    (hsp : ∀ c ∈ sp, isAsciiWordChar c = true)
    (hlen3 : 3 ≤ sp.length) (hlen16 : sp.length ≤ 16)
    (hres : isReservedName sp = false)
    (hne : msg ≠ [])
    (hletter : ∃ c ∈ msg, (isLatinLetter c || isHanURO c) = true)
    (hnb : '[' ∉ msg) (hns : '§' ∉ msg) (hnn : '\n' ∉ msg)
    (hhead : ∀ c, msg.head? = some c → isSpacePy c = false)
    (hlast : ∀ c, msg.getLast? = some c → isSpacePy c = false) :
    extract_player_message (clean_message ('<' :: (sp ++ '>' :: ' ' :: msg))) =
      (some sp, msg) := by
  have hbS : '[' ∉ ('<' :: (sp ++ '>' :: ' ' :: msg)) := by
    intro h
    rcases List.mem_cons.mp h with h | h
    · exact absurd h (by decide)
    rcases List.mem_append.mp h with h | h
    · exact absurd (hsp _ h) (by decide)
    rcases List.mem_cons.mp h with h | h
    · exact absurd h (by decide)
    rcases List.mem_cons.mp h with h | h
    · exact absurd h (by decide)
    · exact hnb h
  have hsS : '§' ∉ ('<' :: (sp ++ '>' :: ' ' :: msg)) := by
    intro h
    rcases List.mem_cons.mp h with h | h
    · exact absurd h (by decide)
    rcases List.mem_append.mp h with h | h
    · exact absurd (hsp _ h) (by decide)
    rcases List.mem_cons.mp h with h | h
    · exact absurd h (by decide)
    rcases List.mem_cons.mp h with h | h
    · exact absurd h (by decide)
    · exact hns h
  have hlastS : ('<' :: (sp ++ '>' :: ' ' :: msg)).getLast? = msg.getLast? := by
    have e1 : '<' :: (sp ++ '>' :: ' ' :: msg) = ('<' :: sp) ++ (['>', ' '] ++ msg) := by simp
    rw [e1, List.getLast?_append_of_ne_nil _ (by simp),
      List.getLast?_append_of_ne_nil _ hne]
  have hclean : clean_message ('<' :: (sp ++ '>' :: ' ' :: msg)) =
      '<' :: (sp ++ '>' :: ' ' :: msg) := by
    rw [clean_message_eq_pyStrip hbS hsS]
    refine pyStrip_eq_self (fun c hc => ?_) (fun c hc => ?_)
    · have hc2 : some '<' = some c := hc
      rw [← Option.some.inj hc2]
      decide
    · exact hlast c (hlastS ▸ hc)
  have hsp_ne_gt : ∀ c ∈ sp, (c != '>') = true := by
    intro c hc
    have hw := hsp c hc
    rw [bne_iff_ne]
    rintro rfl
    exact absurd hw (by decide)
  have htake : (sp ++ '>' :: ' ' :: msg).takeWhile (fun c => c != '>') = sp := by
    rw [takeWhile_append_all hsp_ne_gt, List.takeWhile_cons, if_neg (by decide),
      List.append_nil]
  have hdrop : (sp ++ '>' :: ' ' :: msg).dropWhile (fun c => c != '>') =
      '>' :: ' ' :: msg := by
    rw [dropWhile_append_all hsp_ne_gt, List.dropWhile_cons, if_neg (by decide)]
  have hskip : skipBracketGroups ('<' :: (sp ++ '>' :: ' ' :: msg)) =
      '<' :: (sp ++ '>' :: ' ' :: msg) :=
    skipBracketGroups_cons_ne _ (by decide)
  have hmsg_space : List.dropWhile isSpacePy msg = msg := by
    have := pyStripLeft_eq_self hhead
    unfold pyStripLeft at this
    exact this
  have hmsg_take : msg.takeWhile (fun c => c != '\n') = msg :=
    takeWhile_eq_self_of_all fun c hc => by
      rw [bne_iff_ne]; rintro rfl; exact hnn hc
  have hmsg_dropnl : msg.dropWhile (fun c => c != '\n') = [] :=
    dropWhile_eq_nil_of_all fun c hc => by
      rw [bne_iff_ne]; rintro rfl; exact hnn hc
  have hsp_ne : sp ≠ [] := by rintro rfl; simp at hlen3
  have hsre : matchSpaceRestEnd (' ' :: msg) = some msg := by
    simp only [matchSpaceRestEnd]
    rw [List.dropWhile_cons, if_pos (by decide), hmsg_space, hmsg_take, hmsg_dropnl]
  have hsp_strip : pyStrip sp = sp :=
    pyStrip_eq_self
      (fun c hc => isSpacePy_eq_false_of_word (hsp c (List.mem_of_mem_head? (Option.mem_def.mpr hc))))
      (fun c hc => isSpacePy_eq_false_of_word (hsp c (mem_of_getLast?_eq hc)))
  have hmsg_strip : pyStrip msg = msg := pyStrip_eq_self hhead hlast
  rw [hclean]
  simp only [extract_player_message]
  rw [hclean]
  simp only [matchAnglePattern]
  rw [hskip, matchAngleTail_eq hdrop htake hsp_ne, hsre]
  simp [acceptExtract, hsp_strip, hres, hmsg_strip]

/-! ## `EnhancedMinecraftLogMonitor._monitor_loop`: one poll step -/

inductive PollAction where
  | truncate
  | read (start count : Nat)
  | idle
deriving DecidableEq, Repr

/-- One iteration of the monitor loop body: it compares the observed file
size with `last_position`; on truncation (`size < pos`) it seeks to
end-of-file and sets `last_position = f.tell()` (the new size); on growth it
reads the delta `[pos, size)` and sets `last_position = size`; otherwise it
leaves the position unchanged. -/
def pollStep (pos size : Nat) : Nat × PollAction :=
  if size < pos then (size, .truncate)
  else if pos < size then (size, .read pos (size - pos))
  else (pos, .idle)

/-! ## Claim C9 -/

/-- The claim as stated is false: on detected truncation the monitor seeks
to the end of the file and stores the new size as the offset, not 0.  With
`last_position = 100` and a truncated file of size 40 the new offset is 40. -/
theorem C9_counterexample :
    (pollStep 100 40).2 = PollAction.truncate ∧
    (pollStep 100 40).1 = 40 ∧ (pollStep 100 40).1 ≠ 0 := by
  decide

/-- Claim C9 (amended): after every poll step the offset is at most the
observed file size, and on detected truncation (size < offset) the offset is
reset to the current end-of-file (the new size), not to 0. -/
theorem C9_offset_invariant (pos size : Nat) :
    (pollStep pos size).1 ≤ size ∧ (size < pos → (pollStep pos size).1 = size) := by
  unfold pollStep
  by_cases h1 : size < pos
  · rw [if_pos h1]
    exact ⟨le_refl _, fun _ => rfl⟩
  · rw [if_neg h1]
    by_cases h2 : pos < size
    · rw [if_pos h2]
      exact ⟨le_refl _, fun h => absurd h h1⟩
    · rw [if_neg h2]
      exact ⟨by omega, fun h => absurd h h1⟩

theorem C9_witness :
    (pollStep 100 40).1 ≤ 40 ∧ (pollStep 100 40).1 = 40 :=
  ⟨(C9_offset_invariant 100 40).1, (C9_offset_invariant 100 40).2 (by decide)⟩

/-! ## Claim C5: the dispatcher's bounded queue

`MainWindow.on_log` enqueues with `queue.Queue(maxsize=8).put_nowait`
swallowing `queue.Full`; the tkinter path guards an unbounded queue with
`qsize() >= limit` (limit 5).  Both shed: an item is accepted iff the queue
currently holds fewer than `cap` items; a full queue drops it silently —
the operation is total (never blocks, never raises). -/

def enqueueDrop {α : Type} (cap : Nat) (q : List α) (x : α) : List α × Bool :=
  if q.length < cap then (q ++ [x], true) else (q, false)

/-- Enqueue a burst of items with no drain in between; returns the final
queue and the number of accepted items. -/
def enqueueAll {α : Type} (cap : Nat) (q : List α) : List α → List α × Nat
  | [] => (q, 0)
  | x :: xs =>
    let r := enqueueDrop cap q x
    let rest := enqueueAll cap r.1 xs
    (rest.1, (if r.2 then 1 else 0) + rest.2)

theorem enqueueAll_spec {α : Type} (cap : Nat) (items : List α) :
    ∀ q : List α, q.length ≤ cap →
      (enqueueAll cap q items).1 = q ++ items.take (cap - q.length) ∧
      (enqueueAll cap q items).2 = min (cap - q.length) items.length := by
  induction items with
  | nil => intro q hq; simp [enqueueAll]
  | cons x xs ih =>
    intro q hq
    by_cases hlt : q.length < cap
    · have hd : enqueueDrop cap q x = (q ++ [x], true) := by
        simp [enqueueDrop, hlt]
      obtain ⟨h1, h2⟩ := ih (q ++ [x]) (by simp; omega)
      have hlen : (q ++ [x]).length = q.length + 1 := by simp
      have he2 : cap - q.length = (cap - (q.length + 1)) + 1 := by omega
      rw [hlen] at h1 h2
      simp only [enqueueAll, hd, h1, h2]
      constructor
      · rw [List.append_assoc, he2, List.take_succ_cons]
        simp
      · simp only [List.length_cons]
        simp
        omega
    · have hd : enqueueDrop cap q x = (q, false) := by
        simp [enqueueDrop, hlt]
      obtain ⟨h1, h2⟩ := ih q hq
      have he : cap - q.length = 0 := by omega
      simp only [enqueueAll, hd, h1, h2, he]
      simp

/-- Claim C5: enqueueing a burst of `n ≥ cap` items into an empty dispatcher
queue without draining accepts exactly the first `cap` items and silently
drops every further one (the enqueue operation is total: it never blocks
and never propagates `queue.Full`). -/
theorem C5_burst_sheds {α : Type} (cap : Nat) (items : List α)
    (h : cap ≤ items.length) :
    (enqueueAll cap ([] : List α) items).2 = cap ∧
    (enqueueAll cap ([] : List α) items).1 = items.take cap := by
  obtain ⟨h1, h2⟩ := enqueueAll_spec cap items [] (by simp)
  constructor
  · rw [h2]
    simp only [List.length_nil, Nat.sub_zero]
    omega
  · rw [h1]
    simp

theorem C5_witness :
    (enqueueAll 8 ([] : List Nat) [0, 1, 2, 3, 4, 5, 6, 7, 8, 9]).2 = 8 ∧
    (enqueueAll 8 ([] : List Nat) [0, 1, 2, 3, 4, 5, 6, 7, 8, 9]).1 =
      [0, 1, 2, 3, 4, 5, 6, 7] :=
  ⟨(C5_burst_sheds 8 _ (by decide)).1,
   by rw [(C5_burst_sheds 8 _ (by decide)).2]; decide⟩

/-! ## Claim C6: the auto-translate debounce
(`EnhancedMinecraftTranslator._auto_translate_message`) -/

/-- `target_lang.replace("-CN", "")` (the conditional `if "-CN" in
target_lang` is the identity when the substring is absent). -/
def stripCNFuel : Nat → List Char → List Char
  | 0, l => l
  | _ + 1, [] => []
  | fuel + 1, c :: rest =>
    if (c :: rest).take 3 = ['-', 'C', 'N'] then stripCNFuel fuel ((c :: rest).drop 3)
    else c :: stripCNFuel fuel rest

def stripCN (l : List Char) : List Char := stripCNFuel l.length l

structure AutoState where
  lastMsg : Option (List Char)
  lastTs : ℚ
  queue : List (List Char)
deriving DecidableEq, Repr

/-- `_auto_translate_message`: skip same-language non-chat messages when
auto-detect is on; suppress a message identical to the previously accepted
one arriving within 1 second; update the debounce state; drop when the
queue already holds `queueLimit` items, otherwise enqueue.  Returns the new
state and whether the message was enqueued. -/
def autoTranslateMessage (detectVar : Bool) (targetLang : List Char)
    (queueLimit : Nat) (s : AutoState) (message msgType : List Char)
    (now : ℚ) : AutoState × Bool :=
  let detected := detect message
  let targetSimple := stripCN targetLang
  if detectVar = true ∧
      (detected.value = targetSimple ∨ (detected = .CHINESE ∧ targetSimple = "zh".toList)) ∧
      msgType ≠ "chat".toList then
    (s, false)
  else if s.lastMsg = some message ∧ now - s.lastTs < 1 then
    (s, false)
  else
    let s' : AutoState := { lastMsg := some message, lastTs := now, queue := s.queue }
    if queueLimit ≤ s'.queue.length then (s', false)
    else ({ s' with queue := s'.queue ++ [message] }, true)

/-- Claim C6: two textually identical chat messages handed to the dispatcher
within the one-second debounce window produce exactly one enqueued
translation attempt: the first is accepted, the second is suppressed and the
queue still holds exactly the one new item. -/
theorem C6_debounce_suppresses (detectVar : Bool) (targetLang : List Char)
    (limit : Nat) (s : AutoState) (msg : List Char) (t1 t2 : ℚ)
    (hmsg : s.lastMsg ≠ some msg)
    (hq : s.queue.length < limit)
    (hdt : t2 - t1 < 1) :
    (autoTranslateMessage detectVar targetLang limit s msg ("chat".toList) t1).2 = true ∧
    (autoTranslateMessage detectVar targetLang limit
        (autoTranslateMessage detectVar targetLang limit s msg ("chat".toList) t1).1
        msg ("chat".toList) t2).2 = false ∧
    (autoTranslateMessage detectVar targetLang limit
        (autoTranslateMessage detectVar targetLang limit s msg ("chat".toList) t1).1
        msg ("chat".toList) t2).1.queue = s.queue ++ [msg] := by
  have h1 : autoTranslateMessage detectVar targetLang limit s msg ("chat".toList) t1 =
      ({ lastMsg := some msg, lastTs := t1, queue := s.queue ++ [msg] }, true) := by
    simp only [autoTranslateMessage]
    rw [if_neg (by simp), if_neg (by simp [hmsg]), if_neg (by simp; omega)]
  have h2 : autoTranslateMessage detectVar targetLang limit
      ({ lastMsg := some msg, lastTs := t1, queue := s.queue ++ [msg] } : AutoState)
      msg ("chat".toList) t2 =
      ({ lastMsg := some msg, lastTs := t1, queue := s.queue ++ [msg] }, false) := by
    simp only [autoTranslateMessage]
    rw [if_neg (by simp), if_pos (by simp [hdt])]
  rw [h1, h2]
  exact ⟨rfl, rfl, rfl⟩

theorem C6_witness :
    (autoTranslateMessage false ("zh-CN".toList) 5
      ⟨none, 0, []⟩ ("hello".toList) ("chat".toList) 0).2 = true ∧
    (autoTranslateMessage false ("zh-CN".toList) 5
        (autoTranslateMessage false ("zh-CN".toList) 5
          ⟨none, 0, []⟩ ("hello".toList) ("chat".toList) 0).1
        ("hello".toList) ("chat".toList) (1 / 2)).2 = false ∧
    (autoTranslateMessage false ("zh-CN".toList) 5
        (autoTranslateMessage false ("zh-CN".toList) 5
          ⟨none, 0, []⟩ ("hello".toList) ("chat".toList) 0).1
        ("hello".toList) ("chat".toList) (1 / 2)).1.queue = [] ++ ["hello".toList] :=
  C6_debounce_suppresses false ("zh-CN".toList) 5 ⟨none, 0, []⟩ ("hello".toList) 0 (1 / 2)
    (by decide) (by decide) (by norm_num)

/-! ## Claim C4: the translation cache short-circuits the second call

`MainWindow._translate_core` consults the cache before anything else and
calls the engine only on a miss, storing a successful result.  The cache
class itself lives in `core/cache.py`, which is not among the sources. -/

/-- Modelled from the spec: `core.cache.TranslationCache` of `core/cache.py`
(absent from the sources) is "a mapping from (normalized text, engine id,
target language) to translated text" with average O(1) get/set; `get`
returns the stored text or nothing, `set` stores (later writes refresh). -/
def TranslationCache : Type := List ((List Char × List Char × List Char) × List Char)

def cacheGet (c : TranslationCache) (text engine target : List Char) : Option (List Char) :=
  match c.find? (fun e => decide (e.1 = (text, engine, target))) with
  | some e => some e.2
  | none => none

def cacheSet (c : TranslationCache) (text engine target value : List Char) : TranslationCache :=
  ((text, engine, target), value) :: c

/-- Python truthiness of `cache_hit` / `translated` (`if cache_hit:`): an
absent value or an empty string is falsy. -/
def truthy : Option (List Char) → Bool
  | none => false
  | some v => decide (v ≠ [])

/-- `detected = self.lang_detector.detect(text) if smart and
self.cb_detect.isChecked() else Language.UNKNOWN` -/
def coreDetected (smart cbDetect : Bool) (text : List Char) : Language :=
  if smart = true ∧ cbDetect = true then detect text else .UNKNOWN

/-- The same-language early-return test of `_translate_core`. -/
def sameLangSkip (smart : Bool) (d : Language) (target : List Char) : Bool :=
  decide (smart = true ∧ d ≠ .UNKNOWN ∧
    (d.value = stripCN target ∨ (d = .CHINESE ∧ stripCN target = "zh".toList)))

/-- `from_lang`: "auto" unless smart detection produced a tag. -/
def coreFromLang (smart : Bool) (d : Language) : List Char :=
  if smart = true ∧ d ≠ .UNKNOWN then d.value else "auto".toList

structure CoreResult where
  translated : Option (List Char)
  error : Option (List Char)
  cache_hit : Bool
  from_lang : List Char
deriving DecidableEq, Repr

/-- `MainWindow._translate_core`, with the external engine
(`_translate_with_engine`) abstracted as a function argument; returns the
result quadruple, the updated cache, and whether the engine was invoked.
`if translated and not error: cache.set(...)` stores only a truthy
translation with a falsy error. -/
def translate_core (cache : TranslationCache)
    (engineFn : List Char → List Char → List Char → Option (List Char) × Option (List Char))
    (cbDetect : Bool) (text : List Char) (smart : Bool)
    (target engineName : List Char) : CoreResult × TranslationCache × Bool :=
  let hit := cacheGet cache text engineName target
  if truthy hit = true then
    ({ translated := hit, error := none, cache_hit := true, from_lang := "auto".toList },
      cache, false)
  else
    let detected := coreDetected smart cbDetect text
    if sameLangSkip smart detected target = true then
      ({ translated := some text, error := none, cache_hit := false,
         from_lang := detected.value }, cache, false)
    else
      let from_lang := coreFromLang smart detected
      let r := engineFn text from_lang target
      let newCache :=
        match r with
        | (some tr, none) =>
          if tr ≠ [] then cacheSet cache text engineName target tr else cache
        | (some tr, some e) =>
          if tr ≠ [] ∧ e = [] then cacheSet cache text engineName target tr else cache
        | (none, _) => cache
      ({ translated := r.1, error := r.2, cache_hit := false, from_lang := from_lang },
        newCache, true)

theorem cacheGet_set_same (c : TranslationCache) (text engine target value : List Char) :
    cacheGet (cacheSet c text engine target value) text engine target = some value := by
  simp [cacheGet, cacheSet, List.find?]

/-- Claim C4: after a successful engine translation of (text, engine,
target) — a cache miss with no same-language skip, the engine returning a
non-empty translation and no error — an immediately following identical
request is resolved from the cache: it returns the same translated text with
`cache_hit = true`, leaves the cache unchanged, and does not invoke the
engine again. -/
theorem C4_second_call_cache_hit (cache : TranslationCache)
    (engineFn : List Char → List Char → List Char → Option (List Char) × Option (List Char))
    (cbDetect smart : Bool) (text target engineName t : List Char)
    (hmiss : truthy (cacheGet cache text engineName target) = false)
    (hskip : sameLangSkip smart (coreDetected smart cbDetect text) target = false)
    (heng : engineFn text (coreFromLang smart (coreDetected smart cbDetect text)) target =
      (some t, none))
    (hne : t ≠ []) :
    translate_core cache engineFn cbDetect text smart target engineName =
      ({ translated := some t, error := none, cache_hit := false,
         from_lang := coreFromLang smart (coreDetected smart cbDetect text) },
       cacheSet cache text engineName target t, true) ∧
    translate_core (cacheSet cache text engineName target t)
        engineFn cbDetect text smart target engineName =
      ({ translated := some t, error := none, cache_hit := true,
         from_lang := "auto".toList },
       cacheSet cache text engineName target t, false) := by
  constructor
  · simp only [translate_core, hmiss, Bool.false_eq_true, if_false, hskip, heng]
    rw [if_pos hne]
  · simp only [translate_core, cacheGet_set_same]
    rw [if_pos (by simp [truthy, hne])]

theorem C4_witness :
    translate_core ([] : TranslationCache) (fun _ _ _ => (some ("你好".toList), none))
        false ("hello".toList) false ("zh-CN".toList) ("baidu".toList) =
      ({ translated := some ("你好".toList), error := none, cache_hit := false,
         from_lang := "auto".toList },
       cacheSet [] ("hello".toList) ("baidu".toList) ("zh-CN".toList) ("你好".toList), true) ∧
    translate_core (cacheSet [] ("hello".toList) ("baidu".toList) ("zh-CN".toList) ("你好".toList))
        (fun _ _ _ => (some ("你好".toList), none))
        false ("hello".toList) false ("zh-CN".toList) ("baidu".toList) =
      ({ translated := some ("你好".toList), error := none, cache_hit := true,
         from_lang := "auto".toList },
       cacheSet [] ("hello".toList) ("baidu".toList) ("zh-CN".toList) ("你好".toList), false) :=
  C4_second_call_cache_hit [] (fun _ _ _ => (some ("你好".toList), none))
    false false ("hello".toList) ("zh-CN".toList) ("baidu".toList) ("你好".toList)
    (by decide) (by decide) rfl (by decide)

theorem C8_witness :
    extract_player_message (clean_message ('<' :: ("Steve".toList ++ '>' :: ' ' :: "hello world".toList))) =
      (some ("Steve".toList), "hello world".toList) :=
  C8_extract_roundtrip ("Steve".toList) ("hello world".toList)
    (by decide) (by decide) (by decide) (by decide) (by decide)
    ⟨'h', by decide, by decide⟩ (by decide) (by decide) (by decide)
    (by decide) (by decide)

end MCT
